import Mathlib

/-!
Verification development for the Stockfish-driven chess analysis program
(`src/main.rs`).  The engine controller's query loops, the full-game
analyzer, and their arithmetic helpers are embedded shallowly:

* `f32` evaluation values are modelled as exact rationals (`ℚ`); every
  concrete value appearing in a witness or counterexample below is exactly
  representable in `f32`, so the model and the real program agree there.
* The `as i32` float-to-integer cast is modelled with Rust's saturating
  semantics (`f32AsI32`); other integer arithmetic is modelled exactly.
* The engine's stdout is modelled as a list of read events: a successful
  `read_line` delivering one line (including its trailing newline
  character, as `BufRead::read_line` does), or a read error.  The end of
  the list is end-of-stream: there `read_line` returns `Ok(0)` with an
  empty buffer, forever.
* The external `chess` crate (board representation, legal move
  generation) is the trusted library the spec describes; it is modelled
  by the `ChessLib` interface, and the pieces of its parsing behaviour
  that the program relies on (`Square::from_str`, `ChessMove::from_str`)
  are modelled from the spec's description of the notation.
-/

namespace Schack

/-- Side colour, mirroring `chess::Color`. -/
inductive Color where
  | white
  | black
deriving DecidableEq, Repr

/-- Piece kind, mirroring `chess::Piece`. -/
inductive Piece where
  | pawn
  | knight
  | bishop
  | rook
  | queen
  | king
deriving DecidableEq, Repr

/-- A board square, mirroring `chess::Square`: file 0–7 = a–h, rank 0–7 = 1–8
(the crate's index of a square is `rank * 8 + file`). -/
structure Square where
  file : Nat
  rank : Nat
deriving DecidableEq, Repr

/-- A move, mirroring `chess::ChessMove`: source, destination, optional
promotion piece. -/
structure ChessMove where
  source : Square
  dest : Square
  promotion : Option Piece
deriving DecidableEq, Repr

/-- Characters of a string (engine protocol text is ASCII, so the byte
positions used by the Rust `str` operations coincide with character
positions). -/
def chars (s : String) : List Char := s.data

/-- Does `p` occur as a prefix of `cs`?  (model of `str::starts_with`). -/
def startsWithL : List Char → List Char → Bool
  | [], _ => true
  | _ :: _, [] => false
  | p :: ps, c :: cs => p == c && startsWithL ps cs

/-- Does `p` occur as a contiguous substring of `cs`?  (model of
`str::contains`). -/
def containsSubL (p : List Char) : List Char → Bool
  | [] => startsWithL p []
  | c :: cs => startsWithL p (c :: cs) || containsSubL p cs

/-- Index of the first occurrence of substring `p` in `cs` (model of
`str::find` with a string pattern). -/
def findSubIdx (p : List Char) : List Char → Option Nat
  | [] => if startsWithL p [] then some 0 else none
  | c :: cs =>
    if startsWithL p (c :: cs) then some 0
    else (findSubIdx p cs).map (· + 1)

/-- Index of the first occurrence of character `ch` in `cs` (model of
`str::find` with a char pattern). -/
def findCharIdx (ch : Char) : List Char → Option Nat
  | [] => none
  | c :: cs => if c == ch then some 0 else (findCharIdx ch cs).map (· + 1)

/-- Accumulator pass for whitespace splitting: `acc` holds the current
token reversed. -/
def splitWSAux : List Char → List Char → List (List Char)
  | [], acc => if acc.isEmpty then [] else [acc.reverse]
  | c :: cs, acc =>
    if c.isWhitespace then
      if acc.isEmpty then splitWSAux cs [] else acc.reverse :: splitWSAux cs []
    else splitWSAux cs (c :: acc)

/-- Model of `str::split_whitespace`: maximal runs of non-whitespace
characters, in order. -/
def splitWS (cs : List Char) : List (List Char) := splitWSAux cs []

/-- Digit-string value accumulator: `none` if a non-digit appears. -/
def digitsValAux : List Char → Nat → Option Nat
  | [], acc => some acc
  | c :: cs, acc =>
    if c.isDigit then digitsValAux cs (acc * 10 + (c.toNat - 48)) else none

/-- Value of a non-empty all-digit character list, else `none`. -/
def digitsVal : List Char → Option Nat
  | [] => none
  | c :: cs => digitsValAux (c :: cs) 0

/-- Model of `str::parse::<i32>`: optional sign, at least one digit, no
other characters, and the value must fit in `i32` (otherwise `parse`
fails, which the program treats as "no score on this line"). -/
def parseI32 : List Char → Option Int
  | '+' :: rest => (digitsVal rest).bind fun n =>
      if n ≤ 2147483647 then some (n : Int) else none
  | '-' :: rest => (digitsVal rest).bind fun n =>
      if n ≤ 2147483648 then some (-(n : Int)) else none
  | cs => (digitsVal cs).bind fun n =>
      if n ≤ 2147483647 then some (n : Int) else none

/-- Modelled from the spec: `chess::Square::from_str` of the external
chess crate ("algebraic from-to notation"): a file letter `a`–`h`
followed by a rank digit `1`–`8`; further characters are ignored and
fewer than two characters fail. -/
def squareFromStr : List Char → Option Square
  | c :: d :: _ =>
    if 'a' ≤ c ∧ c ≤ 'h' ∧ '1' ≤ d ∧ d ≤ '8' then
      some ⟨c.toNat - 97, d.toNat - 49⟩
    else none
  | _ => none

/-- Promotion piece letter of UCI move text. -/
def promoOfChar : Char → Option Piece
  | 'q' => some Piece.queen
  | 'r' => some Piece.rook
  | 'b' => some Piece.bishop
  | 'n' => some Piece.knight
  | _ => none

/-- Modelled from the spec: `chess::ChessMove::from_str` of the external
chess crate — "a move in compact coordinate notation (e.g. `e2e4`, with
an optional trailing promotion-piece letter)". -/
def parseUciMove : List Char → Option ChessMove
  | [f1, r1, f2, r2] => do
    let s ← squareFromStr [f1, r1]
    let d ← squareFromStr [f2, r2]
    pure ⟨s, d, none⟩
  | [f1, r1, f2, r2, p] => do
    let s ← squareFromStr [f1, r1]
    let d ← squareFromStr [f2, r2]
    let pr ← promoOfChar p
    pure ⟨s, d, some pr⟩
  | _ => none

/-- One interaction with the engine's stdout reader: either a line was
delivered by `read_line` (with its trailing newline, when one was read),
or the read failed with an I/O error.  The end of the event list is the
end of the stream: from there on, `read_line` returns `Ok(0)` and leaves
the buffer empty. -/
inductive ReadEvent where
  | line (s : String)
  | readErr
deriving DecidableEq, Repr

/-- Failure taxonomy of a query, following the spec's error names.  The
source returns Swedish `String` messages; they are mapped as:
`"Kunde inte läsa från Stockfish"` → `ioError`,
`"Ogiltigt drag mottaget från Stockfish: …"` → `parseError`,
`"Ofullständigt bestmove-svar"` → `incompleteResponse`. -/
inductive QueryError where
  | ioError
  | parseError
  | incompleteResponse
deriving DecidableEq, Repr

/-- Outcome of a query loop: success, an error return, or divergence
(the loop never returns). -/
inductive QueryOutcome (α : Type) where
  | ok (a : α)
  | err (e : QueryError)
  | loops
deriving DecidableEq, Repr

/-- Embedding of `StockfishController::get_best_move` (src/main.rs
168–188).  The board `b` and `depth` are only serialized into the
outgoing `position fen …` / `go depth …` commands; the result is
computed from the reply stream alone.  The loop reads lines until one
starts with `bestmove`; at end of stream `read_line` yields `Ok(0)` with
an empty buffer, the `bestmove` test fails, and the loop retries forever
(`loops`) — only a failing read (`Err`) produces the I/O error return. -/
def get_best_move {B : Type} (b : B) (depth : Nat) : List ReadEvent → QueryOutcome ChessMove
  | [] => QueryOutcome.loops
  | ReadEvent.readErr :: _ => QueryOutcome.err QueryError.ioError
  | ReadEvent.line s :: rest =>
    if startsWithL (chars "bestmove") (chars s) then
      match splitWS (chars s) with
      | _ :: uci :: _ =>
        match parseUciMove uci with
        | some m => QueryOutcome.ok m
        | none => QueryOutcome.err QueryError.parseError
      | _ => QueryOutcome.err QueryError.incompleteResponse
    else get_best_move b depth rest

/-- Score captured from one output line by `get_evaluation`'s parsing
(src/main.rs 204–213): the line must start with `info` and contain
`score`; the integer after the first `"cp "` must be terminated by a
space character `' '` on the same line (note that `read_line` keeps the
trailing newline, so a score that ends its line has no such space and is
not captured); the captured centipawn value is divided by 100. -/
def scoreOfLine (cs : List Char) : Option ℚ :=
  if startsWithL (chars "info") cs && containsSubL (chars "score") cs then
    match findSubIdx (chars "cp ") cs with
    | some cpPos =>
      let after := cs.drop (cpPos + 3)
      match findCharIdx ' ' after with
      | some endIdx => (parseI32 (after.take endIdx)).map fun v => (v : ℚ) / 100
      | none => none
    | none => none
  else none

/-- Read loop of `get_evaluation` with the running evaluation
accumulator (initially `0.0`). -/
def getEvalLoop : List ReadEvent → ℚ → QueryOutcome ℚ
  | [], _ => QueryOutcome.loops
  | ReadEvent.readErr :: _, _ => QueryOutcome.err QueryError.ioError
  | ReadEvent.line s :: rest, acc =>
    let acc' := match scoreOfLine (chars s) with
      | some v => v
      | none => acc
    if startsWithL (chars "bestmove") (chars s) then QueryOutcome.ok acc'
    else getEvalLoop rest acc'

/-- Embedding of `StockfishController::get_evaluation` (src/main.rs
191–221): accumulate the most recent captured score, return it when a
`bestmove` line appears; `0.0` if no score was captured. -/
def get_evaluation {B : Type} (b : B) (depth : Nat) (events : List ReadEvent) : QueryOutcome ℚ :=
  getEvalLoop events 0

/-- Interface of the external `chess` crate as the program uses it — the
legal-move generator and board representation that the spec designates a
trusted library.  `legalMoves` models `MoveGen::new_legal` (as the list
of legal moves of the position), `makeMoveNew` models
`Board::make_move_new`, and `pieceOn` combines `Board::piece_on` /
`Board::color_on` (the crate guarantees the two agree on occupancy,
which is what the `unwrap` in `simple_material_evaluation` relies on). -/
structure ChessLib (B : Type) where
  legalMoves : B → List ChessMove
  makeMoveNew : B → ChessMove → B
  pieceOn : B → Square → Option (Piece × Color)

/-- The engine as seen through `ThreadSafeAiController`: each query
either produces a value or fails.  `none` covers both a failed
`get_evaluation`/`get_best_move` call (`ProtocolError`/`StreamClosed`)
and a failed acquisition of the controller mutex — the source handles
the two identically in `get_position_evaluation` and
`get_best_move_sync`. -/
structure EngineOracle (B : Type) where
  evalQuery : B → Nat → Option ℚ
  bestQuery : B → Nat → Option ChessMove

/-- Embedding of `ChessGame::find_move_from_history` (src/main.rs
841–861): split the recorded text at the first `-`, parse both halves as
squares, build the move with `None` promotion, and return it only if it
is in the position's legal-move list. -/
def find_move_from_history {B : Type} (L : ChessLib B) (board : B) (move_str : String) :
    Option ChessMove :=
  match findCharIdx '-' (chars move_str) with
  | some dashPos =>
    match squareFromStr ((chars move_str).take dashPos),
          squareFromStr ((chars move_str).drop (dashPos + 1)) with
    | some fromSquare, some toSquare =>
      if (⟨fromSquare, toSquare, none⟩ : ChessMove) ∈ L.legalMoves board
      then some ⟨fromSquare, toSquare, none⟩ else none
    | _, _ => none
  | none => none

/-- Piece values of `simple_material_evaluation` (src/main.rs 814–821). -/
def pieceValue : Piece → ℚ
  | Piece.pawn => 1
  | Piece.knight => 3
  | Piece.bishop => 3
  | Piece.rook => 5
  | Piece.queen => 9
  | Piece.king => 0

/-- The 64 squares of `chess::ALL_SQUARES`, in index order
(`index = rank * 8 + file`). -/
def allSquares : List Square := (List.range 64).map fun n => ⟨n % 8, n / 8⟩

/-- Accumulation loop of `simple_material_evaluation`: white and black
material totals over a list of squares. -/
def materialAux {B : Type} (L : ChessLib B) (board : B) :
    List Square → ℚ → ℚ → ℚ × ℚ
  | [], w, bl => (w, bl)
  | sq :: rest, w, bl =>
    match L.pieceOn board sq with
    | some (p, Color.white) => materialAux L board rest (w + pieceValue p) bl
    | some (p, Color.black) => materialAux L board rest w (bl + pieceValue p)
    | none => materialAux L board rest w bl

/-- Embedding of `ChessGame::simple_material_evaluation` (src/main.rs
810–838): sum the piece values per side over all squares and return
white minus black. -/
def simple_material_evaluation {B : Type} (L : ChessLib B) (board : B) : ℚ :=
  let totals := materialAux L board allSquares 0 0
  totals.1 - totals.2

/-- Material count stated the way the spec describes it: the sum over
all occupied squares of the signed piece value (White positive, Black
negative). -/
def specMaterialCount {B : Type} (L : ChessLib B) (board : B) : ℚ :=
  (allSquares.map fun sq =>
    match L.pieceOn board sq with
    | some (p, Color.white) => pieceValue p
    | some (p, Color.black) => -pieceValue p
    | none => 0).sum

/-- Embedding of `ChessGame::get_position_evaluation` (src/main.rs
797–807): the engine's evaluation when the query (and the mutex
acquisition) succeeds, the material fallback otherwise. -/
def get_position_evaluation {B : Type} (L : ChessLib B) (O : EngineOracle B)
    (board : B) (depth : Nat) : ℚ :=
  match O.evalQuery board depth with
  | some e => e
  | none => simple_material_evaluation L board

/-- Display form of a square as the crate's `Display` prints it
(file letter then rank digit, e.g. `e4`). -/
def squareStr (sq : Square) : String :=
  String.mk [Char.ofNat (97 + sq.file), Char.ofNat (49 + sq.rank)]

/-- Embedding of `ChessGame::get_best_move_sync` (src/main.rs 864–880):
on success the move plus its `from-to` rendering, on failure (query or
lock) the pair of `None`s. -/
def get_best_move_sync {B : Type} (O : EngineOracle B) (board : B) (depth : Nat) :
    Option ChessMove × Option String :=
  match O.bestQuery board depth with
  | some best_move => (some best_move, some (squareStr best_move.source ++ "-" ++ squareStr best_move.dest))
  | none => (none, none)

/-- Truncation toward zero of a rational, using only `Nat` floor
division on the numerator's absolute value — the rounding mode of
Rust's float-to-integer `as` cast. -/
def ratTruncToward0 (q : ℚ) : ℤ :=
  Int.sign q.num * (q.num.natAbs / q.den : ℕ)

/-- Rust's saturating `as i32` cast of an `f32` value (modelled on ℚ):
truncate toward zero, then clamp into `[-2^31, 2^31 - 1]`.  (The NaN →
0 rule has no counterpart in ℚ; no reachable value here is NaN.) -/
def f32AsI32 (q : ℚ) : ℤ :=
  max (-(2 ^ 31)) (min (2 ^ 31 - 1) (ratTruncToward0 q))

/-- Embedding of `ChessGame::calculate_centipawn_loss` (src/main.rs
883–894): score drop from the mover's perspective, clamped at zero,
times 100, cast to `i32`. -/
def calculate_centipawn_loss (eval_before eval_after : ℚ) (side_that_moved : Color) : ℤ :=
  let loss := if side_that_moved = Color.white
    then eval_before - eval_after
    else eval_after - eval_before
  f32AsI32 (max (loss * 100) 0)

/-- Centipawn loss exactly as the claim words it: the signed difference
for the mover, scaled by 100, truncated to an integer, and clamped to
be non-negative — with no saturation of the truncated value. -/
def specCentipawnLoss (eval_before eval_after : ℚ) (side_that_moved : Color) : ℤ :=
  let loss := if side_that_moved = Color.white
    then eval_before - eval_after
    else eval_after - eval_before
  max 0 (ratTruncToward0 (loss * 100))

/-- Embedding of `ChessGame::classify_move` (src/main.rs 897–903):
raw threshold flags at 300/100/50, returned in descending-severity
priority order. -/
def classify_move (centipawn_loss : ℤ) : Bool × Bool × Bool :=
  let is_blunder := decide (300 ≤ centipawn_loss)
  let is_mistake := decide (100 ≤ centipawn_loss)
  let is_inaccuracy := decide (50 ≤ centipawn_loss)
  (is_blunder, is_mistake && !is_blunder, is_inaccuracy && !is_mistake && !is_blunder)

/-- Per-move analysis record (src/main.rs 26–38).  The source fields
`move_notation` and `best_move_notation` are named `moveText` and
`bestMoveText` here. -/
structure MoveAnalysis where
  chess_move : ChessMove
  moveText : String
  evaluation_before : ℚ
  evaluation_after : ℚ
  centipawn_loss : ℤ
  is_blunder : Bool
  is_mistake : Bool
  is_inaccuracy : Bool
  best_move : Option ChessMove
  bestMoveText : Option String
deriving DecidableEq, Repr

/-- Whole-game analysis record (src/main.rs 41–49). -/
structure GameAnalysis where
  moves : List MoveAnalysis
  white_accuracy : ℚ
  black_accuracy : ℚ
  total_blunders : Nat
  total_mistakes : Nat
  total_inaccuracies : Nat
deriving DecidableEq, Repr

/-- The replay loop of `ChessGame::analyze_full_game` (src/main.rs
728–775), with the running ply index and current board explicit.  A
move text containing `uppgivning` (resignation marker) breaks out of
the loop; a move text that does not resolve against the current
position is skipped by the `if let` — the loop continues with the next
recorded move and the same board.  The analysis depth is fixed at 15. -/
def analyzeMovesFrom {B : Type} (L : ChessLib B) (O : EngineOracle B) :
    List String → Nat → B → List MoveAnalysis
  | [], _, _ => []
  | move_str :: rest, move_index, current_board =>
    if containsSubL (chars "uppgivning") (chars move_str) then []
    else
      let evaluation_before := get_position_evaluation L O current_board 15
      match find_move_from_history L current_board move_str with
      | some played_move =>
        let best_move_result := get_best_move_sync O current_board 15
        let next_board := L.makeMoveNew current_board played_move
        let evaluation_after := get_position_evaluation L O next_board 15
        let side_that_moved := if move_index % 2 = 0 then Color.white else Color.black
        let centipawn_loss :=
          calculate_centipawn_loss evaluation_before evaluation_after side_that_moved
        let flags := classify_move centipawn_loss
        { chess_move := played_move
          moveText := move_str
          evaluation_before := evaluation_before
          evaluation_after := evaluation_after
          centipawn_loss := centipawn_loss
          is_blunder := flags.1
          is_mistake := flags.2.1
          is_inaccuracy := flags.2.2
          best_move := best_move_result.1
          bestMoveText := best_move_result.2 } ::
        analyzeMovesFrom L O rest (move_index + 1) next_board
      | none => analyzeMovesFrom L O rest (move_index + 1) current_board

/-- The parity split of `ChessGame::calculate_accuracy` (src/main.rs
906–922): moves at even enumeration index go to White's list, odd to
Black's. -/
def splitSides : List MoveAnalysis → Nat → List MoveAnalysis × List MoveAnalysis
  | [], _ => ([], [])
  | m :: rest, i =>
    let (w, b) := splitSides rest (i + 1)
    if i % 2 = 0 then (m :: w, b) else (w, m :: b)

/-- Two's-complement wrap into the `i32` range
`[-2147483648, 2147483647]`: the result of a release-build `i32`
addition chain reduced modulo `2^32`. -/
def wrapI32 (n : ℤ) : ℤ := (n + 2147483648) % 4294967296 - 2147483648

/-- The `total_centipawn_loss` summation of
`calculate_player_accuracy` (src/main.rs 930–932): an
`i32` sum of the zero-clamped losses, so every addition wraps modulo
`2^32` (release semantics; a debug build would panic on overflow
instead). -/
def sumLossesI32 (moves : List MoveAnalysis) : ℤ :=
  moves.foldl (fun acc m => wrapI32 (acc + max m.centipawn_loss 0)) 0

/-- Embedding of `ChessGame::calculate_player_accuracy` (src/main.rs
925–938): 100 for an empty list, otherwise
`(100 - average_loss / 10)` clamped into `[0, 100]`, where each loss is
clamped at zero before entering the wrapping `i32` sum. -/
def calculate_player_accuracy (moves : List MoveAnalysis) : ℚ :=
  if moves.isEmpty then 100
  else
    let average_loss : ℚ := (sumLossesI32 moves : ℚ) / (moves.length : ℚ)
    min (max (100 - average_loss / 10) 0) 100

/-- Embedding of `ChessGame::calculate_accuracy`: split by parity of
index, then score each side. -/
def calculate_accuracy (moves : List MoveAnalysis) : ℚ × ℚ :=
  let sides := splitSides moves 0
  (calculate_player_accuracy sides.1, calculate_player_accuracy sides.2)

/-- Per-side accuracy stated the way the claim words it, as a function
of the side's centipawn losses: `clamp(100 - average/10, 0, 100)` over
the exact (unwrapped) sum of the losses, and exactly 100 when the side
has no moves. -/
def specAccuracyOfLosses (losses : List ℤ) : ℚ :=
  if losses = [] then 100
  else min 100 (max 0 (100 - ((losses.sum : ℚ) / (losses.length : ℚ)) / 10))

/-- Per-side accuracy as amended: the same clamp formula, but with the
side's total loss summed as a wrapping `i32` (the width the source
uses), and exactly 100 when the side has no moves. -/
def specAccuracyOfLossesI32 (losses : List ℤ) : ℚ :=
  if losses = [] then 100
  else min 100 (max 0 (100 - ((wrapI32 losses.sum : ℚ) / (losses.length : ℚ)) / 10))

/-- Embedding of `ChessGame::analyze_full_game` (src/main.rs 717–794):
run the replay loop from ply 0, then aggregate accuracies and severity
tallies. -/
def analyze_full_game {B : Type} (L : ChessLib B) (O : EngineOracle B)
    (move_history : List String) (board : B) : GameAnalysis :=
  let analysis_moves := analyzeMovesFrom L O move_history 0 board
  let accuracies := calculate_accuracy analysis_moves
  { moves := analysis_moves
    white_accuracy := accuracies.1
    black_accuracy := accuracies.2
    total_blunders := (analysis_moves.filter fun m => m.is_blunder).length
    total_mistakes := (analysis_moves.filter fun m => m.is_mistake).length
    total_inaccuracies := (analysis_moves.filter fun m => m.is_inaccuracy).length }

/-- The engine oracle in which every query fails (engine unavailable,
stream closed, or mutex never acquired). -/
def failingOracle (B : Type) : EngineOracle B :=
  { evalQuery := fun _ _ => none
    bestQuery := fun _ _ => none }

/-- An engine oracle whose evaluation query always answers with the
material count of the queried position and whose best-move query always
fails. -/
def materialOracle {B : Type} (L : ChessLib B) : EngineOracle B :=
  { evalQuery := fun b _ => some (simple_material_evaluation L b)
    bestQuery := fun _ _ => none }

/-- Modelled from the spec: the legal-move set of the initial chess
position, as the trusted legal-move generator (`MoveGen::new_legal` of
the external chess crate) produces it — the 20 standard first moves
(16 single and double pawn pushes and 4 knight moves).  White is to
move; e7e5 is a Black move and is not among them. -/
def startLegalMoves : List ChessMove :=
  ((List.range 8).map fun f => (⟨⟨f, 1⟩, ⟨f, 2⟩, none⟩ : ChessMove)) ++
  ((List.range 8).map fun f => (⟨⟨f, 1⟩, ⟨f, 3⟩, none⟩ : ChessMove)) ++
  [⟨⟨1, 0⟩, ⟨0, 2⟩, none⟩, ⟨⟨1, 0⟩, ⟨2, 2⟩, none⟩,
   ⟨⟨6, 0⟩, ⟨5, 2⟩, none⟩, ⟨⟨6, 0⟩, ⟨7, 2⟩, none⟩]

/-- A one-state library view of the initial position sufficient for the
`get_best_move` legality question: its legal moves are
`startLegalMoves`. -/
def initialLib : ChessLib Unit :=
  { legalMoves := fun _ => startLegalMoves
    makeMoveNew := fun b _ => b
    pieceOn := fun _ _ => none }

/-- A two-state toy instance of the trusted library for concrete replay
runs: in state 0 exactly `e2e4` (as a plain, non-promotion move) is
legal, and playing it leads to state 1 with no legal moves.  No pieces
are reported, so its material count is 0. -/
def demoLib : ChessLib Nat :=
  { legalMoves := fun n => if n = 0 then [⟨⟨4, 1⟩, ⟨4, 3⟩, none⟩] else []
    makeMoveNew := fun n _ => n + 1
    pieceOn := fun _ _ => none }

/-- An engine oracle for `demoLib` reporting evaluation `+1.0` in the
initial state and `-2.0` after the move, with no best-move answers. -/
def demoOracle : EngineOracle Nat :=
  { evalQuery := fun n _ => some (if n = 0 then 1 else -2)
    bestQuery := fun _ _ => none }

/-- A library instance whose position has exactly one legal move, a
pawn promotion `e7e8q`: the recorded text `e7-e8` can only match it as
a promotion. -/
def promoLib : ChessLib Unit :=
  { legalMoves := fun _ => [⟨⟨4, 6⟩, ⟨4, 7⟩, some Piece.queen⟩]
    makeMoveNew := fun b _ => b
    pieceOn := fun _ _ => none }

/-- Signed material value contributed by one square (White positive,
Black negative, empty zero). -/
def signedValue {B : Type} (L : ChessLib B) (board : B) (sq : Square) : ℚ :=
  match L.pieceOn board sq with
  | some (p, Color.white) => pieceValue p
  | some (p, Color.black) => -pieceValue p
  | none => 0

/-- The score that `get_evaluation`'s parsing accumulates over a list of
lines, starting from the neutral `0`. -/
def capturedScore (lines : List String) : ℚ :=
  lines.foldl (fun acc l => (scoreOfLine (chars l)).getD acc) 0

/-- A move-analysis record with a given centipawn loss and neutral
remaining fields, for concrete accuracy computations. -/
def demoAnalysis (l : ℤ) : MoveAnalysis :=
  { chess_move := ⟨⟨0, 1⟩, ⟨0, 2⟩, none⟩
    moveText := "a2-a3"
    evaluation_before := 0
    evaluation_after := 0
    centipawn_loss := l
    is_blunder := false
    is_mistake := false
    is_inaccuracy := false
    best_move := none
    bestMoveText := none }

/-! Helper lemmas shared by the claim theorems. -/

/-- Truncation of an integer value changes nothing. -/
theorem ratTruncToward0_intCast (n : ℤ) : ratTruncToward0 ((n : ℚ)) = n := by
  unfold ratTruncToward0
  rw [Rat.num_intCast, Rat.den_intCast, Nat.div_one]
  exact Int.sign_mul_natAbs n

/-- Truncation toward zero preserves non-negativity. -/
theorem ratTruncToward0_nonneg {q : ℚ} (h : 0 ≤ q) : 0 ≤ ratTruncToward0 q := by
  unfold ratTruncToward0
  have hn : 0 ≤ q.num := Rat.num_nonneg.mpr h
  exact mul_nonneg (Int.sign_nonneg.mpr hn) (Int.ofNat_nonneg _)

/-- Truncation toward zero preserves non-positivity. -/
theorem ratTruncToward0_nonpos {q : ℚ} (h : q ≤ 0) : ratTruncToward0 q ≤ 0 := by
  unfold ratTruncToward0
  have hn : q.num ≤ 0 := Rat.num_nonpos.mpr h
  have hcast : (0 : ℤ) ≤ (q.num.natAbs / q.den : ℕ) := Int.ofNat_nonneg _
  rcases lt_trichotomy q.num 0 with h1 | h1 | h1
  · rw [Int.sign_eq_neg_one_of_neg h1]
    nlinarith
  · rw [h1]
    simp
  · omega

/-- Truncation commutes with the clamp at zero. -/
theorem ratTruncToward0_max_zero (q : ℚ) :
    ratTruncToward0 (max q 0) = max 0 (ratTruncToward0 q) := by
  rcases le_total q 0 with h | h
  · rw [max_eq_right h]
    have h2 := ratTruncToward0_nonpos h
    have h0 : ratTruncToward0 0 = 0 := by decide
    rw [h0, max_eq_left h2]
  · rw [max_eq_left h]
    have h2 := ratTruncToward0_nonneg h
    rw [max_eq_right h2]

/-- Saturating a value already clamped at zero only clips above. -/
theorem satClamp_of_max_zero (t : ℤ) :
    max (-(2 ^ 31)) (min (2 ^ 31 - 1) (max 0 t)) = max 0 (min (2 ^ 31 - 1) t) := by
  omega

/-- With an always-failing engine, every position evaluation is the
material fallback. -/
theorem gpe_failing {B : Type} (L : ChessLib B) (b : B) (d : Nat) :
    get_position_evaluation L (failingOracle B) b d = simple_material_evaluation L b := rfl

/-- With the material-backed oracle, every position evaluation is the
material count. -/
theorem gpe_material {B : Type} (L : ChessLib B) (b : B) (d : Nat) :
    get_position_evaluation L (materialOracle L) b d = simple_material_evaluation L b := rfl

/-- The failing oracle yields no best move. -/
theorem gbms_failing {B : Type} (b : B) (d : Nat) :
    get_best_move_sync (failingOracle B) b d = (none, none) := rfl

/-- The material-backed oracle yields no best move. -/
theorem gbms_material {B : Type} (L : ChessLib B) (b : B) (d : Nat) :
    get_best_move_sync (materialOracle L) b d = (none, none) := rfl

/-- The replay loop produces identical output under the always-failing
oracle and the material-backed oracle. -/
theorem analyzeMovesFrom_failing_material {B : Type} (L : ChessLib B) :
    ∀ (hist : List String) (i : Nat) (b : B),
      analyzeMovesFrom L (failingOracle B) hist i b
        = analyzeMovesFrom L (materialOracle L) hist i b := by
  intro hist
  induction hist with
  | nil => intro i b; rfl
  | cons s rest ih =>
    intro i b
    simp only [analyzeMovesFrom, gpe_failing, gpe_material, gbms_failing, gbms_material]
    cases hfind : find_move_from_history L b s
    · simp [hfind, ih]
    · simp [hfind, ih]

/-- Both components of the parity split draw their members from the
input list. -/
theorem splitSides_subset :
    ∀ (xs : List MoveAnalysis) (i : Nat),
      (∀ m ∈ (splitSides xs i).1, m ∈ xs) ∧ (∀ m ∈ (splitSides xs i).2, m ∈ xs) := by
  intro xs
  induction xs with
  | nil =>
    intro i
    constructor <;> intro m hm <;> simp [splitSides] at hm
  | cons x rest ih =>
    intro i
    obtain ⟨ihw, ihb⟩ := ih (i + 1)
    rcases hsplit : splitSides rest (i + 1) with ⟨w, b⟩
    rw [hsplit] at ihw ihb
    by_cases hpar : i % 2 = 0
    · constructor <;> intro m hm <;> simp only [splitSides, hsplit, hpar, if_pos] at hm
      · rcases List.mem_cons.mp hm with h | h
        · simp [h]
        · exact List.mem_cons_of_mem _ (ihw m h)
      · exact List.mem_cons_of_mem _ (ihb m hm)
    · constructor <;> intro m hm <;> simp only [splitSides, hsplit, hpar, if_neg] at hm
      · exact List.mem_cons_of_mem _ (ihw m hm)
      · rcases List.mem_cons.mp hm with h | h
        · simp [h]
        · exact List.mem_cons_of_mem _ (ihb m h)

/-- Folding wrapping additions from a wrapped accumulator equals
wrapping the exact sum once. -/
theorem sumLossesI32_foldl (moves : List MoveAnalysis) :
    ∀ acc : ℤ,
      moves.foldl (fun a m => wrapI32 (a + max m.centipawn_loss 0)) (wrapI32 acc)
        = wrapI32 (acc + (moves.map fun m => max m.centipawn_loss 0).sum) := by
  induction moves with
  | nil => intro acc; simp [List.foldl]
  | cons m moves ih =>
    intro acc
    rw [List.foldl_cons,
      show wrapI32 (wrapI32 acc + max m.centipawn_loss 0)
          = wrapI32 (acc + max m.centipawn_loss 0) from by unfold wrapI32; omega,
      ih, List.map_cons, List.sum_cons, add_assoc]

/-- The `i32` loss summation equals the exact sum of the clamped losses
wrapped once into the `i32` range. -/
theorem sumLossesI32_eq (moves : List MoveAnalysis) :
    sumLossesI32 moves = wrapI32 ((moves.map fun m => max m.centipawn_loss 0).sum) := by
  unfold sumLossesI32
  nth_rewrite 2 [show (0 : ℤ) = wrapI32 0 from by decide]
  rw [sumLossesI32_foldl, zero_add]

/-- For a side whose losses are all non-negative, the code's accuracy
computation agrees with the clamp formula over the `i32`-wrapped sum of
the raw losses. -/
theorem player_accuracy_spec (moves : List MoveAnalysis)
    (h : ∀ m ∈ moves, 0 ≤ m.centipawn_loss) :
    calculate_player_accuracy moves
      = specAccuracyOfLossesI32 (moves.map fun m => m.centipawn_loss) := by
  unfold calculate_player_accuracy specAccuracyOfLossesI32
  by_cases hm : moves = []
  · subst hm; simp
  · have h1 : moves.isEmpty = false := by
      simpa using mt List.isEmpty_iff.mp hm
    have h2 : moves.map (fun m => m.centipawn_loss) ≠ [] := by
      simpa using hm
    have h3 : (moves.map fun m => max m.centipawn_loss 0) = moves.map fun m => m.centipawn_loss :=
      List.map_congr_left fun m hmem => max_eq_left (h m hmem)
    rw [h1, if_neg h2, sumLossesI32_eq, h3]
    simp only [List.length_map]
    rw [max_comm, min_comm]
    simp

/-- The material accumulation loop computes the accumulators plus the
sum of signed square values. -/
theorem materialAux_sub {B : Type} (L : ChessLib B) (board : B) :
    ∀ (sqs : List Square) (w bl : ℚ),
      (materialAux L board sqs w bl).1 - (materialAux L board sqs w bl).2
        = (w - bl) + (sqs.map (signedValue L board)).sum := by
  intro sqs
  induction sqs with
  | nil => intro w bl; simp [materialAux]
  | cons sq rest ih =>
    intro w bl
    simp only [materialAux, List.map_cons, List.sum_cons, signedValue]
    rcases hp : L.pieceOn board sq with _ | ⟨p, c⟩
    · rw [ih]; ring
    · cases c <;> · rw [ih]; ring

/-- Run of the evaluation read loop over non-`bestmove` lines followed
by a `bestmove` line: the loop returns the folded captured score. -/
theorem getEvalLoop_run :
    ∀ (pre : List String) (acc : ℚ) (s : String) (rest : List ReadEvent),
      (∀ l ∈ pre, startsWithL (chars "bestmove") (chars l) = false) →
      startsWithL (chars "bestmove") (chars s) = true →
      getEvalLoop (pre.map ReadEvent.line ++ ReadEvent.line s :: rest) acc
        = QueryOutcome.ok
            ((pre ++ [s]).foldl (fun a l => (scoreOfLine (chars l)).getD a) acc) := by
  intro pre
  induction pre with
  | nil =>
    intro acc s rest _ hs
    simp only [List.map_nil, List.nil_append, getEvalLoop, hs, if_pos, List.foldl]
    cases hsc : scoreOfLine (chars s) <;> simp [hsc, Option.getD]
  | cons l pre' ih =>
    intro acc s rest hpre hs
    have hl : startsWithL (chars "bestmove") (chars l) = false :=
      hpre l (List.mem_cons_self l pre')
    have hpre' : ∀ x ∈ pre', startsWithL (chars "bestmove") (chars x) = false :=
      fun x hx => hpre x (List.mem_cons_of_mem _ hx)
    simp only [List.map_cons, List.cons_append, getEvalLoop, hl, List.cons_append,
      List.foldl_cons]
    rw [if_neg (by simp [hl])]
    cases hsc : scoreOfLine (chars l) <;>
      simpa [hsc, Option.getD] using ih _ s rest hpre' hs

/-- Soundness of move resolution: a resolved move is legal and carries
no promotion piece. -/
theorem find_move_sound {B : Type} (L : ChessLib B) (board : B) (move_str : String)
    (m : ChessMove) (hm : find_move_from_history L board move_str = some m) :
    m ∈ L.legalMoves board ∧ m.promotion = none := by
  unfold find_move_from_history at hm
  split at hm
  · split at hm
    · split at hm
      · rename_i hmem
        cases hm
        exact ⟨hmem, rfl⟩
      · cases hm
    · cases hm
  · cases hm

/-! Claim theorems. -/

/-- C1 (counterexample).  `get_best_move` does not validate the parsed
move against the position's legal-move set: fed the reply line
`bestmove e7e5`, it succeeds with the move e7→e5 even though that move
is not among the legal moves of the initial position (where White is to
move), so it can silently return an illegal move. -/
theorem c1_counterexample :
    get_best_move (B := Unit) () 15 [ReadEvent.line "bestmove e7e5\n"]
      = QueryOutcome.ok ⟨⟨4, 6⟩, ⟨4, 4⟩, none⟩
  ∧ (⟨⟨4, 6⟩, ⟨4, 4⟩, none⟩ : ChessMove) ∉ initialLib.legalMoves () :=
  ⟨by decide, by decide⟩

/-- C1 (amended).  `get_best_move(P, D)`'s result is independent of the
position `P` and the depth `D` — no legality check against `P` is
possible — and every successful result is exactly the move parsed from
the second whitespace token of a `bestmove` line of the reply stream,
legal or not. -/
theorem c1_theorem :
    (∀ (B₁ B₂ : Type) (b₁ : B₁) (b₂ : B₂) (d₁ d₂ : Nat) (events : List ReadEvent),
      get_best_move b₁ d₁ events = get_best_move b₂ d₂ events)
  ∧ (∀ (B : Type) (b : B) (d : Nat) (events : List ReadEvent) (m : ChessMove),
      get_best_move b d events = QueryOutcome.ok m →
      ∃ s, ReadEvent.line s ∈ events
        ∧ startsWithL (chars "bestmove") (chars s) = true
        ∧ ∃ tok0 uci toks, splitWS (chars s) = tok0 :: uci :: toks
            ∧ parseUciMove uci = some m) := by
  constructor
  · intro B₁ B₂ b₁ b₂ d₁ d₂ events
    induction events with
    | nil => rfl
    | cons e rest ih =>
      cases e with
      | readErr => rfl
      | line s =>
        by_cases hb : startsWithL (chars "bestmove") (chars s) = true
        · simp only [get_best_move, hb, if_pos]
        · simp only [get_best_move, hb, if_neg, Bool.false_eq_true, ih]
  · intro B b d events
    induction events with
    | nil => intro m hm; cases hm
    | cons e rest ih =>
      intro m hm
      cases e with
      | readErr => cases hm
      | line s =>
        by_cases hb : startsWithL (chars "bestmove") (chars s) = true
        · rw [get_best_move, if_pos hb] at hm
          rcases hsp : splitWS (chars s) with _ | ⟨tok0, _ | ⟨uci, toks⟩⟩ <;>
            rw [hsp] at hm
          · cases hm
          · cases hm
          · dsimp only at hm
            rcases hp : parseUciMove uci with _ | m' <;> rw [hp] at hm
            · cases hm
            · cases hm
              exact ⟨s, List.mem_cons_self _ _, hb, tok0, uci, toks, hsp, hp⟩
        · rw [get_best_move, if_neg hb] at hm
          obtain ⟨s', hmem, h1, h2⟩ := ih m hm
          exact ⟨s', List.mem_cons_of_mem _ hmem, h1, h2⟩

/-- C1 (witness).  The amended theorem applied to a concrete stream
whose `bestmove` line carries `e2e4`. -/
theorem c1_witness :
    (get_best_move (B := Unit) () 1 [ReadEvent.line "bestmove e2e4\n"]
      = get_best_move (B := Nat) 0 2 [ReadEvent.line "bestmove e2e4\n"])
  ∧ (∃ s, ReadEvent.line s ∈ [ReadEvent.line "bestmove e2e4\n"]
      ∧ startsWithL (chars "bestmove") (chars s) = true
      ∧ ∃ tok0 uci toks, splitWS (chars s) = tok0 :: uci :: toks
          ∧ parseUciMove uci = some ⟨⟨4, 1⟩, ⟨4, 3⟩, none⟩) :=
  ⟨c1_theorem.1 Unit Nat () 0 1 2 [ReadEvent.line "bestmove e2e4\n"],
   c1_theorem.2 Unit () 1 [ReadEvent.line "bestmove e2e4\n"] ⟨⟨4, 1⟩, ⟨4, 3⟩, none⟩ (by decide)⟩

/-- C2 (counterexample).  An unresolvable recorded move does not abort
the rest of the replay: with history `["xx", "e2-e4"]`, the first entry
fails to resolve, yet the second — later — entry still produces a
`MoveAnalysis` (and the board is advanced by it). -/
theorem c2_counterexample :
    find_move_from_history demoLib 0 "xx" = none
  ∧ ((analyze_full_game demoLib (failingOracle Nat) ["xx", "e2-e4"] 0).moves.map
      fun m => m.moveText) = ["e2-e4"] :=
  ⟨by decide, by decide⟩

/-- C2 (amended).  When a recorded move text (not containing the
resignation marker) cannot be resolved against the current position,
only that move is skipped: the loop continues with the remaining moves,
the ply index advanced by one and the board unchanged. -/
theorem c2_theorem {B : Type} (L : ChessLib B) (O : EngineOracle B)
    (s : String) (rest : List String) (i : Nat) (b : B)
    (hne : containsSubL (chars "uppgivning") (chars s) = false)
    (hfind : find_move_from_history L b s = none) :
    analyzeMovesFrom L O (s :: rest) i b = analyzeMovesFrom L O rest (i + 1) b := by
  simp only [analyzeMovesFrom, hne, Bool.false_eq_true, if_false, hfind]

/-- C2 (witness).  The amended theorem applied to the unresolvable
text `xx` at the demo position. -/
theorem c2_witness :
    analyzeMovesFrom demoLib (failingOracle Nat) ["xx", "e2-e4"] 0 0
      = analyzeMovesFrom demoLib (failingOracle Nat) ["e2-e4"] 1 0 :=
  c2_theorem demoLib (failingOracle Nat) "xx" ["e2-e4"] 0 0 (by decide) (by decide)

/-- C3.  If the engine's stdout reaches end of stream before any
`bestmove` line, `get_best_move` does not return an `IoError`: at EOF
`read_line` keeps succeeding with `Ok(0)` and an empty buffer, so the
loop never terminates (`loops`), which contradicts the claimed IoError
return (only a failing read produces that error). -/
theorem c3_theorem {B : Type} (b : B) (d : Nat) (lines : List String)
    (h : ∀ l ∈ lines, startsWithL (chars "bestmove") (chars l) = false) :
    get_best_move b d (lines.map ReadEvent.line) = QueryOutcome.loops
  ∧ (QueryOutcome.loops : QueryOutcome ChessMove) ≠ QueryOutcome.err QueryError.ioError := by
  refine ⟨?_, by decide⟩
  induction lines with
  | nil => rfl
  | cons l rest ih =>
    have hl : startsWithL (chars "bestmove") (chars l) = false :=
      h l (List.mem_cons_self l rest)
    have hrest : ∀ x ∈ rest, startsWithL (chars "bestmove") (chars x) = false :=
      fun x hx => h x (List.mem_cons_of_mem _ hx)
    simp only [List.map_cons, get_best_move, hl, Bool.false_eq_true, if_false]
    exact ih hrest

/-- C3 (witness).  A stream that delivers one `info` line and then
closes makes `get_best_move` loop forever instead of failing. -/
theorem c3_witness :
    get_best_move (B := Unit) () 15 (["info depth 1\n"].map ReadEvent.line)
      = QueryOutcome.loops
  ∧ (QueryOutcome.loops : QueryOutcome ChessMove) ≠ QueryOutcome.err QueryError.ioError :=
  c3_theorem () 15 ["info depth 1\n"] (by decide)

/-- C4.  Severity classification is a strict partition: the blunder
flag is `loss ≥ 300`, the returned mistake flag is `100 ≤ loss < 300`,
the returned inaccuracy flag is `50 ≤ loss < 100`, exactly one of the
four outcomes (including "none") holds for every integer loss, and in
particular 299 classifies as mistake and 300 as blunder. -/
theorem c4_theorem (loss : ℤ) :
    classify_move loss
      = (decide (300 ≤ loss), decide (100 ≤ loss ∧ loss < 300), decide (50 ≤ loss ∧ loss < 100))
  ∧ ([(classify_move loss).1, (classify_move loss).2.1, (classify_move loss).2.2,
      !((classify_move loss).1 || (classify_move loss).2.1 || (classify_move loss).2.2)].count
        true) = 1
  ∧ classify_move 299 = (false, true, false)
  ∧ classify_move 300 = (true, false, false) := by
  refine ⟨?_, ?_, by decide, by decide⟩ <;>
    by_cases h3 : 300 ≤ loss <;> by_cases h1 : 100 ≤ loss <;> by_cases h5 : 50 ≤ loss <;>
      simp [classify_move, h3, h1, h5, List.count_cons] <;> omega

/-- C5 (counterexample).  The cast `as i32` saturates: at
`evaluation_before = 2^25 = 33554432.0` and `evaluation_after = -2^25`
(both exactly representable in `f32`) for White, the code yields
`i32::MAX = 2147483647`, while the claimed unsaturated formula
(difference × 100, truncated, clamped non-negative) yields
`6710886400`. -/
theorem c5_counterexample :
    calculate_centipawn_loss 33554432 (-33554432) Color.white = 2147483647
  ∧ specCentipawnLoss 33554432 (-33554432) Color.white = 6710886400
  ∧ (2147483647 : ℤ) ≠ 6710886400 := by
  have harg : ((33554432 : ℚ) - (-33554432)) * 100 = ((6710886400 : ℤ) : ℚ) := by norm_num
  refine ⟨?_, ?_, by decide⟩
  · show f32AsI32 (max (((33554432 : ℚ) - (-33554432)) * 100) 0) = 2147483647
    rw [harg, max_eq_left (by positivity), f32AsI32, ratTruncToward0_intCast]
    decide
  · show max 0 (ratTruncToward0 ((((33554432 : ℚ) - (-33554432))) * 100)) = 6710886400
    rw [harg, ratTruncToward0_intCast]
    decide

/-- C5 (amended).  For every pair of evaluations and every moving side,
centipawn loss equals the mover-relative difference scaled by 100,
truncated toward zero, saturated above at `i32::MAX = 2^31 - 1`, and
clamped to be non-negative; the result is ≥ 0 for all inputs. -/
theorem c5_theorem (eval_before eval_after : ℚ) (side : Color) :
    calculate_centipawn_loss eval_before eval_after side
      = max 0 (min (2 ^ 31 - 1)
          (ratTruncToward0
            ((if side = Color.white then eval_before - eval_after
              else eval_after - eval_before) * 100)))
  ∧ 0 ≤ calculate_centipawn_loss eval_before eval_after side := by
  have h1 : calculate_centipawn_loss eval_before eval_after side
      = max 0 (min (2 ^ 31 - 1)
          (ratTruncToward0
            ((if side = Color.white then eval_before - eval_after
              else eval_after - eval_before) * 100))) := by
    show f32AsI32 (max ((if side = Color.white then eval_before - eval_after
        else eval_after - eval_before) * 100) 0) = _
    rw [f32AsI32, ratTruncToward0_max_zero, satClamp_of_max_zero]
  exact ⟨h1, h1 ▸ le_max_left 0 _⟩

/-- C6.  In the concrete run where White's move at ply 0 is evaluated
at `+1.0` before and `-2.0` after, the produced `MoveAnalysis` has
centipawn loss exactly 300 and is flagged as a blunder. -/
theorem c6_theorem :
    ((analyze_full_game demoLib demoOracle ["e2-e4"] 0).moves.map
      fun m => m.evaluation_before) = [1]
  ∧ ((analyze_full_game demoLib demoOracle ["e2-e4"] 0).moves.map
      fun m => m.evaluation_after) = [-2]
  ∧ ((analyze_full_game demoLib demoOracle ["e2-e4"] 0).moves.map
      fun m => m.centipawn_loss) = [300]
  ∧ ((analyze_full_game demoLib demoOracle ["e2-e4"] 0).moves.map
      fun m => m.is_blunder) = [true] := by
  have hloss : calculate_centipawn_loss 1 (-2) Color.white = 300 := by
    show f32AsI32 (max (((1 : ℚ) - (-2)) * 100) 0) = 300
    have harg : ((1 : ℚ) - (-2)) * 100 = ((300 : ℤ) : ℚ) := by norm_num
    rw [harg, max_eq_left (by positivity), f32AsI32, ratTruncToward0_intCast]
    decide
  refine ⟨rfl, rfl, ?_, ?_⟩
  · show [calculate_centipawn_loss 1 (-2) Color.white] = [300]
    rw [hloss]
  · show [(classify_move (calculate_centipawn_loss 1 (-2) Color.white)).1] = [true]
    rw [hloss]
    decide

/-- C7 (counterexample).  The source sums a side's losses as an `i32`,
which wraps in a release build: with White's two moves both carrying
the pipeline-reachable saturated loss `i32::MAX = 2147483647`, the
wrapped total is `-2`, so the program reports accuracy 100 for White,
while the claim's formula over the exact average gives 0. -/
theorem c7_counterexample :
    (calculate_accuracy
      [demoAnalysis 2147483647, demoAnalysis 0, demoAnalysis 2147483647]).1 = 100
  ∧ specAccuracyOfLosses [2147483647, 2147483647] = 0
  ∧ (100 : ℚ) ≠ 0 := by
  refine ⟨?_, ?_, by norm_num⟩
  · show calculate_player_accuracy [demoAnalysis 2147483647, demoAnalysis 2147483647] = 100
    have hs : sumLossesI32 [demoAnalysis 2147483647, demoAnalysis 2147483647] = -2 := by
      decide
    show min (max (100 - ((sumLossesI32 [demoAnalysis 2147483647, demoAnalysis 2147483647] : ℚ)
        / ((2 : Nat) : ℚ)) / 10) 0) 100 = 100
    rw [hs]
    have h1 : (100 : ℚ) - (((-2 : ℤ) : ℚ) / ((2 : Nat) : ℚ)) / 10 = 1001 / 10 := by
      norm_num
    rw [h1, max_eq_left (by norm_num), min_eq_right (by norm_num)]
  · show min 100 (max 0 (100 - ((([2147483647, 2147483647] : List ℤ).sum : ℚ)
        / ((2 : Nat) : ℚ)) / 10)) = 0
    have hsum : ([2147483647, 2147483647] : List ℤ).sum = 4294967294 := by decide
    rw [hsum]
    have h1 : (100 : ℚ) - (((4294967294 : ℤ) : ℚ) / ((2 : Nat) : ℚ)) / 10
        = -2147482647 / 10 := by norm_num
    rw [h1, max_eq_left (by norm_num), min_eq_right (by norm_num)]

/-- C7 (amended).  Per-side accuracy: the moves are assigned to White
and Black by parity of index, each side scores
`clamp(100 - average_loss/10, 0, 100)` where the average divides the
side's `i32`-wrapped total of its centipawn losses by its move count
(here stated for analyses whose losses are non-negative, which is every
loss the analyzer produces), and a side with zero moves — in particular
the empty move list — scores exactly 100. -/
theorem c7_theorem (moves : List MoveAnalysis)
    (h : ∀ m ∈ moves, 0 ≤ m.centipawn_loss) :
    calculate_accuracy moves
      = (specAccuracyOfLossesI32 ((splitSides moves 0).1.map fun m => m.centipawn_loss),
         specAccuracyOfLossesI32 ((splitSides moves 0).2.map fun m => m.centipawn_loss))
  ∧ calculate_player_accuracy [] = 100
  ∧ (∀ a b c : MoveAnalysis, splitSides [a, b, c] 0 = ([a, c], [b])) := by
  refine ⟨?_, rfl, fun a b c => rfl⟩
  obtain ⟨hw, hb⟩ := splitSides_subset moves 0
  show (calculate_player_accuracy (splitSides moves 0).1,
        calculate_player_accuracy (splitSides moves 0).2) = _
  rw [player_accuracy_spec _ fun m hm => h m (hw m hm),
      player_accuracy_spec _ fun m hm => h m (hb m hm)]

/-- C7 (witness).  The amended theorem applied to a concrete three-move
list with losses 20, 100 and 40. -/
theorem c7_witness :
    calculate_accuracy [demoAnalysis 20, demoAnalysis 100, demoAnalysis 40]
      = (specAccuracyOfLossesI32 [20, 40], specAccuracyOfLossesI32 [100])
  ∧ calculate_player_accuracy [] = 100
  ∧ (∀ a b c : MoveAnalysis, splitSides [a, b, c] 0 = ([a, c], [b])) :=
  c7_theorem [demoAnalysis 20, demoAnalysis 100, demoAnalysis 40] (by decide)

/-- C8 (counterexample).  A score whose `cp` value is the last token of
its line is not captured: `read_line` keeps the trailing newline, the
parser requires a space `' '` after the number, so on the stream
`info score cp 34` then `bestmove e2e4` the function returns `Ok 0.0`
although a score line with value 34 (i.e. 0.34 pawns ≠ 0) was seen;
the same line with a following field is captured. -/
theorem c8_counterexample :
    get_evaluation (B := Unit) () 15
      [ReadEvent.line "info score cp 34\n", ReadEvent.line "bestmove e2e4\n"]
      = QueryOutcome.ok 0
  ∧ (34 : ℚ) / 100 ≠ 0
  ∧ scoreOfLine (chars "info score cp 34 nodes 1\n") = some (((34 : ℤ) : ℚ) / 100) :=
  ⟨by decide, by norm_num, rfl⟩

/-- C8 (amended).  For a stream of lines followed by the first
`bestmove` line, `get_evaluation` succeeds with the last captured
score — where a line's score is captured only if the line starts with
`info`, contains `score`, and the integer after `cp ` is followed by a
space character on the same line — and with the neutral `0.0` when no
line's score was captured. -/
theorem c8_theorem {B : Type} (b : B) (d : Nat) (pre : List String) (s : String)
    (rest : List ReadEvent)
    (hpre : ∀ l ∈ pre, startsWithL (chars "bestmove") (chars l) = false)
    (hs : startsWithL (chars "bestmove") (chars s) = true) :
    get_evaluation b d (pre.map ReadEvent.line ++ ReadEvent.line s :: rest)
      = QueryOutcome.ok (capturedScore (pre ++ [s])) :=
  getEvalLoop_run pre 0 s rest hpre hs

/-- C8 (witness).  The amended theorem applied to a stream with one
captured score line. -/
theorem c8_witness :
    get_evaluation (B := Unit) () 15
      [ReadEvent.line "info score cp 34 nodes 1\n", ReadEvent.line "bestmove e2e4\n"]
      = QueryOutcome.ok (capturedScore ["info score cp 34 nodes 1\n", "bestmove e2e4\n"]) :=
  c8_theorem () 15 ["info score cp 34 nodes 1\n"] "bestmove e2e4\n" [] (by decide) (by decide)

/-- C9.  When every engine query fails (engine unavailable or lock
unobtainable), position evaluation is the material count — the signed
sum of piece values pawn 1, knight 3, bishop 3, rook 5, queen 9,
king 0, White minus Black — and the full-game analysis is exactly the
(total, never-failing) analysis computed with material-count
evaluations and absent best moves. -/
theorem c9_theorem {B : Type} (L : ChessLib B) (hist : List String) (b : B) (d : Nat) :
    get_position_evaluation L (failingOracle B) b d = simple_material_evaluation L b
  ∧ simple_material_evaluation L b = (allSquares.map (signedValue L b)).sum
  ∧ analyze_full_game L (failingOracle B) hist b
      = analyze_full_game L (materialOracle L) hist b := by
  refine ⟨rfl, ?_, ?_⟩
  · show (materialAux L b allSquares 0 0).1 - (materialAux L b allSquares 0 0).2 = _
    rw [materialAux_sub]
    ring
  · unfold analyze_full_game
    rw [analyzeMovesFrom_failing_material]

/-- C10.  Every move that `find_move_from_history` resolves is legal in
the given board and carries no promotion piece; consequently, in a
position whose matching legal moves are all promotions, no recorded
text resolves at all. -/
theorem c10_theorem {B : Type} (L : ChessLib B) (board : B) (move_str : String) :
    (∀ m, find_move_from_history L board move_str = some m →
      m ∈ L.legalMoves board ∧ m.promotion = none)
  ∧ ((∀ m ∈ L.legalMoves board, m.promotion ≠ none) →
      find_move_from_history L board move_str = none) := by
  constructor
  · exact fun m hm => find_move_sound L board move_str m hm
  · intro hall
    rcases hfind : find_move_from_history L board move_str with _ | m
    · rfl
    · obtain ⟨hmem, hpromo⟩ := find_move_sound L board move_str m hfind
      exact absurd hpromo (hall m hmem)

/-- C10 (witness).  At the demo position the plain text `e2-e4`
resolves to the legal non-promotion move e2→e4, and in the
promotion-only position the text `e7-e8` does not resolve. -/
theorem c10_witness :
    ((⟨⟨4, 1⟩, ⟨4, 3⟩, none⟩ : ChessMove) ∈ demoLib.legalMoves 0
      ∧ (⟨⟨4, 1⟩, ⟨4, 3⟩, none⟩ : ChessMove).promotion = none)
  ∧ find_move_from_history promoLib () "e7-e8" = none :=
  ⟨(c10_theorem demoLib 0 "e2-e4").1 ⟨⟨4, 1⟩, ⟨4, 3⟩, none⟩ (by decide),
   (c10_theorem promoLib () "e7-e8").2 (by decide)⟩

end Schack
